import Mathlib

/-!
Verification of the Phaneron node-execution and frame-flow runtime.

This file embeds, as executable Lean definitions, the parts of the
Phaneron source that the specification's claims are about:

* `src/phaneron/src/channel.rs` — the fan-out frame `Channel`, its
  per-subscriber queues and the `ChannelSemaphoreProvider`;
* `src/phaneron/src/node_context.rs` — `NodeRunContext.connect_video_pipe`,
  `ProcessFrameContextImpl.submit`, and one iteration of the `run_node`
  scheduler loop;
* `src/phaneron/src/compute.rs` — the GPU image pool (`create_image`,
  slot release);
* `src/phaneron/src/io.rs` — `ToAudioF32.process_frame` and
  `FromAudioF32.process_frame`.

Modelling conventions: machine integers are `Nat`/`Int` with explicit
two's-complement encoding where serialisation matters; `f32`/`f64`
arithmetic on audio samples is modelled exactly over `ℚ` (the `f64`
intermediate computations in the source are exact for i16 and within
half an f32 ulp for i32, which is far below the claimed error bounds);
an `f32` value that is merely serialised, never computed with, is
modelled by its 32-bit pattern. Rust panics (`todo!`, index
out-of-bounds, `byteorder` length asserts) are modelled with `Except`.
-/

namespace Phaneron

/-! ## Identifier and frame types (spec §3, `phaneron-plugin`) -/

/-- Opaque string-like identifier for a video input. -/
abbrev VideoInputId := String
/-- Opaque string-like identifier for a video output. -/
abbrev VideoOutputId := String
/-- Opaque string-like identifier for an audio input. -/
abbrev AudioInputId := String
/-- Opaque string-like identifier for an audio output. -/
abbrev AudioOutputId := String

/-- A video frame as the runtime sees it: a handle with width and height
(`phaneron_plugin::traits::VideoFrame`). -/
structure VideoFrame where
  width : Nat
  height : Nat
deriving Repr, DecidableEq

/-- An audio frame: an id and planar sample buffers, one per channel
(`compute::audio_frame::AudioFrame`). Samples are modelled in `ℚ`. -/
structure AudioFrame where
  id : String
  buffers : List (List ℚ)
deriving Repr, DecidableEq

/-- `phaneron_plugin::VideoFrameWithId`: the producing output id paired
with the frame. -/
structure VideoFrameWithId where
  id : VideoOutputId
  frame : VideoFrame
deriving Repr, DecidableEq

/-- `phaneron_plugin::AudioFrameWithId`. -/
structure AudioFrameWithId where
  id : AudioOutputId
  frame : AudioFrame
deriving Repr, DecidableEq

/-! ## Channel (`src/phaneron/src/channel.rs`)

A `Channel<T>` holds a vector of `tokio::sync::mpsc::Sender`s, one per
subscriber (`ChannelInner.senders`). `subscribe()` pushes a new sender
and hands the receiver (the `Pipe`) to the subscriber; nothing ever
removes a sender from the vector. Dropping the receiver closes its
channel, after which `blocking_send` fails and the delivery is dropped
(`.ok()` in `Channel::send`).

A subscriber is modelled as its sender: `isOpen` records whether the
paired receiver is still alive, and `queue` is the sequence of
deliveries that have been accepted by the receiving side over the
subscriber's lifetime (the mpsc queue has depth 1, so `send` blocks
until the consumer makes space; a completed send means the delivery
entered the queue — the `queue` list records them all, in order).
Semaphores are named by `Nat` ids; the provider hands them out from a
counter, which makes "fresh" checkable. -/

/-- One entry of `ChannelInner.senders` together with the state of its
receiving end. -/
structure Subscriber (α : Type) where
  isOpen : Bool
  queue : List (α × Nat)
deriving Repr, DecidableEq

/-- `Channel<T>`: the subscriber (sender) vector. -/
structure ChannelState (α : Type) where
  subscribers : List (Subscriber α)
deriving Repr, DecidableEq

/-- `ChannelSemaphoreProvider`: a source of fresh one-shot semaphores;
`registered` is the vector of receive-ends the provider retains
(drained by the scheduler). -/
structure SemProvider where
  nextSem : Nat
  registered : List Nat
deriving Repr, DecidableEq

/-- `ChannelSemaphoreProvider::get_semaphore`. -/
def SemProvider.getSemaphore (p : SemProvider) : Nat × SemProvider :=
  (p.nextSem, ⟨p.nextSem + 1, p.registered ++ [p.nextSem]⟩)

/-- `ChannelSemaphoreProvider::drain`. -/
def SemProvider.drain (p : SemProvider) : List Nat × SemProvider :=
  (p.registered, ⟨p.nextSem, []⟩)

namespace Channel

/-- `Channel::subscribe`: create a (sender, receiver) pair of depth 1 and
push the sender. -/
def subscribe {α : Type} (ch : ChannelState α) : ChannelState α :=
  ⟨ch.subscribers ++ [⟨true, []⟩]⟩

/-- Dropping a subscriber's `Pipe` (receiver). The sender stays in the
vector; further sends to it fail and are ignored. -/
def dropPipe {α : Type} (ch : ChannelState α) (k : Nat) : ChannelState α :=
  ⟨ch.subscribers.map (fun s => s) |>.set k
    (match ch.subscribers.get? k with
     | some s => { s with isOpen := false }
     | none => ⟨false, []⟩)⟩

/-- The `for sender in &inner.senders` loop of `Channel::send`: obtain a
fresh semaphore from the provider and `blocking_send` the
`(value, semaphore)` pair; a failed send (receiver dropped) is
ignored. -/
def sendLoop {α : Type} (v : α) :
    List (Subscriber α) → SemProvider → List (Subscriber α) × SemProvider
  | [], p => ([], p)
  | sub :: rest, p =>
    let (sem, p') := p.getSemaphore
    let sub' := if sub.isOpen then { sub with queue := sub.queue ++ [(v, sem)] } else sub
    let r := sendLoop v rest p'
    (sub' :: r.1, r.2)

/-- `Channel::send`. -/
def send {α : Type} (ch : ChannelState α) (p : SemProvider) (v : α) :
    ChannelState α × SemProvider :=
  let r := sendLoop v ch.subscribers p
  (⟨r.1⟩, r.2)

/-- `Channel::no_receivers`: `senders.is_empty()`. -/
def noReceivers {α : Type} (ch : ChannelState α) : Bool :=
  ch.subscribers.isEmpty

/-- Iterated `send` of a list of values. -/
def sendMany {α : Type} (ch : ChannelState α) (p : SemProvider) :
    List α → ChannelState α × SemProvider
  | [] => (ch, p)
  | v :: vs =>
    let r := send ch p v
    sendMany r.1 r.2 vs

end Channel

/-- Number of subscribers whose receiving `Pipe` is still alive — what the
spec calls the channel's "current subscribers" once unsubscribe-on-drop
is taken into account. -/
def ChannelState.liveCount {α : Type} (ch : ChannelState α) : Nat :=
  (ch.subscribers.filter (·.isOpen)).length

/-! ## ProcessFrameContext (`node_context.rs`, `ProcessFrameContextImpl`) -/

/-- `FrameContextImpl`: the capability token returned by a successful
`submit()`. It has no fields and no operation of the runtime invalidates
it. -/
structure FrameContextImpl where
deriving Repr, DecidableEq

/-- `ProcessFrameContextImpl`: holds the `submitted` flag. -/
structure ProcessFrameContextImpl where
  submitted : Bool
deriving Repr, DecidableEq

namespace ProcessFrameContextImpl

/-- `Default` for `ProcessFrameContextImpl`: `submitted = false`. -/
def default : ProcessFrameContextImpl := ⟨false⟩

/-- `ProcessFrameContextImpl::submit`: error if already submitted,
otherwise set the flag and return the `FrameContext` token. -/
def submit (c : ProcessFrameContextImpl) :
    Except String FrameContextImpl × ProcessFrameContextImpl :=
  if c.submitted then (.error "Already submitted", c)
  else (.ok ⟨⟩, ⟨true⟩)

/-- The result of the `n`-th call (counting from 0) in a sequence of
`submit()` calls on one context starting from `default`. -/
def submitSeq : Nat → Except String FrameContextImpl × ProcessFrameContextImpl
  | 0 => submit default
  | n + 1 => (submitSeq n).2.submit

end ProcessFrameContextImpl

/-! ## Pipes (`compute/video_output.rs`, `compute/audio_output.rs`)

`VideoPipe.next_frame()` awaits the receiver; it yields
`Some (frame, semaphore)` or `None` when the producing channel closed.
For one scheduler iteration a pipe is modelled by what its
`next_frame()` call yields this tick. -/

/-- `VideoPipe`, reduced to the outcome of this tick's `next_frame()`. -/
structure VideoPipe where
  id : VideoOutputId
  next : Option (VideoFrame × Nat)
deriving Repr, DecidableEq

/-- `AudioPipe`, reduced to the outcome of this tick's `next_frame()`. -/
structure AudioPipe where
  id : AudioOutputId
  next : Option (AudioFrame × Nat)
deriving Repr, DecidableEq

/-! ## NodeRunContext.connect_video_pipe (`node_context.rs` 170–193)

The `HashMap<VideoInputId, (VideoOutputId, VideoPipe)>` of connected
pipes is modelled as an association list keyed by input id. -/

/-- `VideoConnectionError` (`node_context.rs` 516–520). -/
inductive VideoConnectionError
  | inputDoesNotExist (input : VideoInputId)
  | inputAlreadyConnectedTo (input : VideoInputId) (output : VideoOutputId)
deriving Repr, DecidableEq

/-- The slice of `NodeRunContextInner` that `connect_video_pipe` touches. -/
structure VideoConnectState where
  video_input_ids : List VideoInputId
  connected_video_pipes : List (VideoInputId × (VideoOutputId × VideoPipe))
deriving Repr, DecidableEq

/-- Association-list lookup, first match wins (HashMap `get`). -/
def lookupAssoc {κ α : Type} [DecidableEq κ] : List (κ × α) → κ → Option α
  | [], _ => none
  | (k, a) :: rest, key => if k = key then some a else lookupAssoc rest key

/-- `NodeRunContext::connect_video_pipe`: reject when the input id is not
declared, reject when it is already connected, otherwise insert
`(pipe.id, pipe)` under the input id. The state is returned alongside
the result so that the error cases visibly leave it unchanged. -/
def connectVideoPipe (st : VideoConnectState) (to_video_input : VideoInputId)
    (video_pipe : VideoPipe) :
    Except VideoConnectionError Unit × VideoConnectState :=
  if ¬ st.video_input_ids.contains to_video_input then
    (.error (.inputDoesNotExist to_video_input), st)
  else
    match lookupAssoc st.connected_video_pipes to_video_input with
    | some conn => (.error (.inputAlreadyConnectedTo to_video_input conn.1), st)
    | none =>
      (.ok (),
        { st with
          connected_video_pipes :=
            st.connected_video_pipes ++ [(to_video_input, (video_pipe.id, video_pipe))] })

/-! ## One iteration of the scheduler loop (`run_node`, `node_context.rs` 554–762) -/

/-- Which `continue` of the `run_node` loop was taken. -/
inductive SkipReason
  | videoInputsNotConnected
  | audioInputsNotConnected
  | videoOutputsNoReceivers
  | audioOutputsNoReceivers
deriving Repr, DecidableEq

/-- Observable events of one scheduler iteration, in program order. -/
inductive TraceEv
  | applyState (accepted : Bool)
  | processFrameCall
  | awaitDownstream (sem : Nat)
  | signalUpstream (sem : Nat)
deriving Repr, DecidableEq

/-- The inputs one `run_node` iteration reads: the snapshot taken by
`get_run_process_frame_context`, the pending-state cell, the node
behaviour's `apply_state` verdict, and the semaphores that
`process_frame`'s `push_frame` calls registered with the node's
`ChannelSemaphoreProvider` (drained after the call returns). -/
structure IterInput where
  audio_input_ids : List AudioInputId
  video_input_ids : List VideoInputId
  audio_outputs : List (AudioOutputId × ChannelState AudioFrame)
  video_outputs : List (VideoOutputId × ChannelState VideoFrame)
  connected_audio_pipes : List (AudioInputId × (AudioOutputId × AudioPipe))
  connected_video_pipes : List (VideoInputId × (VideoOutputId × VideoPipe))
  pending_state : Option String
  node_accepts_state : Bool
  pushed_semaphores : List Nat
deriving Repr, DecidableEq

/-- What an iteration that reached `process_frame` produced. -/
structure RanOutcome where
  video_frames : List (VideoInputId × VideoFrameWithId)
  audio_frames : List (AudioInputId × AudioFrameWithId)
  black : VideoFrameWithId
  silence : AudioFrameWithId
  new_prev_black : Nat × Nat × VideoFrameWithId
  new_prev_silence : AudioFrameWithId
  trace : List TraceEv
deriving Repr, DecidableEq

/-- Result of one pass through the `run_node` loop body. `panicked` is
the `todo!("Tell context to disconnect pipe")` panic. -/
inductive IterOutcome
  | skipped (r : SkipReason)
  | panicked
  | ran (out : RanOutcome)
deriving Repr, DecidableEq

/-- The audio-gathering loop (`node_context.rs` 639–655): for each
declared audio input, take one frame from its connected pipe, recording
the delivery semaphore; an unconnected input is queued for silence
substitution; a pipe at end-of-stream pushes to the silence list and
then hits `todo!` (a panic, modelled as `Except.error`). Returns
`(upstream semaphores, received frames, inputs requiring silence)`. -/
def gatherAudio (pipes : List (AudioInputId × (AudioOutputId × AudioPipe))) :
    List AudioInputId →
    Except Unit (List Nat × List (AudioInputId × AudioFrameWithId) × List AudioInputId)
  | [] => .ok ([], [], [])
  | input_id :: rest =>
    match lookupAssoc pipes input_id with
    | some (pipe_id, pipe) =>
      match pipe.next with
      | some (frame, semaphore) =>
        (gatherAudio pipes rest).map fun (sems, frames, silence) =>
          (semaphore :: sems, (input_id, AudioFrameWithId.mk pipe_id frame) :: frames, silence)
      | none => .error ()
    | none =>
      (gatherAudio pipes rest).map fun (sems, frames, silence) =>
        (sems, frames, input_id :: silence)

/-- The video-gathering loop (`node_context.rs` 657–677), additionally
tracking `max_width`/`max_height` over the received frames. -/
def gatherVideo (pipes : List (VideoInputId × (VideoOutputId × VideoPipe)))
    (max_width max_height : Nat) :
    List VideoInputId →
    Except Unit (List Nat × List (VideoInputId × VideoFrameWithId) × List VideoInputId × Nat × Nat)
  | [] => .ok ([], [], [], max_width, max_height)
  | input_id :: rest =>
    match lookupAssoc pipes input_id with
    | some (pipe_id, pipe) =>
      match pipe.next with
      | some (frame, semaphore) =>
        (gatherVideo pipes (max max_width frame.width) (max max_height frame.height) rest).map
          fun (sems, frames, blacks, w, h) =>
            (semaphore :: sems, (input_id, VideoFrameWithId.mk pipe_id frame) :: frames, blacks, w, h)
      | none => .error ()
    | none =>
      (gatherVideo pipes max_width max_height rest).map
        fun (sems, frames, blacks, w, h) =>
          (sems, frames, input_id :: blacks, w, h)

/-- `PhaneronComputeContext::create_black_frame`, wrapped with the
`"black"` output id as in `run_node` (lines 682–697). -/
def mkBlackFrame (w h : Nat) : VideoFrameWithId := ⟨"black", ⟨w, h⟩⟩

/-- The cached silence frame: one channel of `48000 / 25` zero samples
with id `"silence"` (lines 700–710). -/
def mkSilenceFrame : AudioFrameWithId :=
  ⟨"silence", ⟨"silence", [List.replicate (48000 / 25) 0]⟩⟩

/-- Events emitted by taking and applying the pending-state cell
(`node_context.rs` 619–627). -/
def stateTrace (pending : Option String) (accepted : Bool) : List TraceEv :=
  match pending with
  | some _ => [.applyState accepted]
  | none => []

/-- The event sequence of an iteration that reaches `process_frame`:
state application, the `process_frame` call, one await per drained
downstream semaphore (in drain order), then one signal per recorded
upstream semaphore (in collection order) — `node_context.rs` 724–756. -/
def iterationTrace (state_trace : List TraceEv) (downstream upstream : List Nat) :
    List TraceEv :=
  state_trace ++ [.processFrameCall] ++
    downstream.map .awaitDownstream ++ upstream.map .signalUpstream

/-- One pass through the body of the `run_node` loop. In program order:
the four connectivity gates, pending-state application, input
gathering, black/silence synthesis and substitution, the
`process_frame` call on a worker thread, draining the semaphore
provider, awaiting every drained downstream semaphore, and signalling
every recorded upstream semaphore. -/
def runIteration (prev_black : Option (Nat × Nat × VideoFrameWithId))
    (prev_silence : Option AudioFrameWithId) (inp : IterInput) : IterOutcome :=
  if ¬ inp.video_input_ids.isEmpty ∧
      inp.connected_video_pipes.length ≠ inp.video_input_ids.length then
    .skipped .videoInputsNotConnected
  else if ¬ inp.audio_input_ids.isEmpty ∧
      inp.connected_audio_pipes.length ≠ inp.audio_input_ids.length then
    .skipped .audioInputsNotConnected
  else if inp.video_outputs.any (fun o => Channel.noReceivers o.2) then
    .skipped .videoOutputsNoReceivers
  else if inp.audio_outputs.any (fun o => Channel.noReceivers o.2) then
    .skipped .audioOutputsNoReceivers
  else
    let state_trace : List TraceEv := stateTrace inp.pending_state inp.node_accepts_state
    match gatherAudio inp.connected_audio_pipes inp.audio_input_ids with
    | .error _ => .panicked
    | .ok (audio_sems, audio_received, silence_inputs) =>
      match gatherVideo inp.connected_video_pipes 256 1 inp.video_input_ids with
      | .error _ => .panicked
      | .ok (video_sems, video_received, black_inputs, max_width, max_height) =>
        let black_frame :=
          match prev_black with
          | some (w, h, frame) =>
            if max_width > w ∨ max_height > h then mkBlackFrame max_width max_height
            else frame
          | none => mkBlackFrame max_width max_height
        let silence_frame :=
          match prev_silence with
          | some frame => frame
          | none => mkSilenceFrame
        let video_frames := video_received ++ black_inputs.map (fun i => (i, black_frame))
        let audio_frames := audio_received ++ silence_inputs.map (fun i => (i, silence_frame))
        let upstream_semaphores := audio_sems ++ video_sems
        let trace :=
          iterationTrace state_trace inp.pushed_semaphores upstream_semaphores
        .ran
          { video_frames := video_frames
            audio_frames := audio_frames
            black := black_frame
            silence := silence_frame
            new_prev_black := (max_width, max_height, black_frame)
            new_prev_silence := silence_frame
            trace := trace }

/-- Whether an iteration reached the `node.process_frame` call. -/
def IterOutcome.processFrameInvoked : IterOutcome → Bool
  | .ran _ => true
  | _ => false

/-! ## GPU image pool (`compute.rs`)

`PhaneronComputeContext::create_image` scans `video_buffers` with
`iter().position(..)` for an available slot of exactly the requested
dimensions; on a hit it clears `available` and returns the index, on a
miss it pushes a fresh `VideoBuffer::new` (whose `available` field is
initialised `true`, exactly as in the source) and returns the new
last index. Dropping a `VideoBufferRef` posts the index to a channel; a
dedicated task sets `available = true` for that slot. -/

/-- A pool slot (`compute.rs` `VideoBuffer`; the GPU image object itself
carries no information the pool logic reads). -/
structure VideoBuffer where
  available : Bool
  width : Nat
  height : Nat
deriving Repr, DecidableEq

namespace Pool

/-- The `position` predicate of `create_image`. -/
def slotMatches (w h : Nat) (b : VideoBuffer) : Bool :=
  b.available && b.width == w && b.height == h

/-- `iter().position(..)`: index of the first matching slot. -/
def findAvailable (w h : Nat) : List VideoBuffer → Option Nat
  | [] => none
  | b :: rest =>
    if slotMatches w h b then some 0
    else (findAvailable w h rest).map (· + 1)

/-- Overwrite one slot of the pool (the `get_mut(index)` updates). -/
def setSlot (pool : List VideoBuffer) (i : Nat) (b : VideoBuffer) : List VideoBuffer :=
  pool.set i b

/-- `PhaneronComputeContext::create_image`: first fit by index, else
grow the pool by one slot; returns the acquired slot index and the new
pool. -/
def createImage (pool : List VideoBuffer) (w h : Nat) : Nat × List VideoBuffer :=
  match findAvailable w h pool with
  | some index =>
    (index,
      setSlot pool index
        (match pool.get? index with
         | some b => { b with available := false }
         | none => ⟨false, w, h⟩))
  | none => (pool.length, pool ++ [⟨true, w, h⟩])

/-- The release task (`create_compute_context`, lines 107–112): a
dropped `VideoBufferRef` posts its index and the drain loop sets the
slot available. -/
def releaseSlot (pool : List VideoBuffer) (i : Nat) : List VideoBuffer :=
  match pool.get? i with
  | some b => pool.set i { b with available := true }
  | none => pool

end Pool

/-! ## Audio conversion (`io.rs`, `ToAudioF32` / `FromAudioF32`)

`FromAudioF32.process_frame` turns planar samples into interleaved
little-endian bytes; `ToAudioF32.process_frame` turns interleaved bytes
back into planar samples. The i16/u16/i32 sample maths (done in `f64`
in the source) is modelled exactly over `ℚ`: for i16 the `f64`
computation is exact, for i32 it is within half an f32 ulp, both far
inside the claimed error bounds. An `f32`-format sample is only
serialised, never computed with, so it is modelled by its 32-bit
pattern (a `Nat` below `2^32`); `write_f32_into`/`read_f32_into` write
and read exactly those four bytes.

Rust panics reachable in these functions are modelled as errors:
`todoUnimplemented` is `todo!("Return a reasonable error")` on a
channel-count mismatch, `indexOutOfBounds` is the slice index panic on
`buffers[channel][sample]`, and `lengthMismatch` is the `byteorder`
`read_*_into` assertion that the source length is exactly
`bytes_per_sample * destination length`. -/

/-- `phaneron_plugin::AudioChannelLayout`. -/
inductive AudioChannelLayout
  | mono | left | right | l_r | r_l
deriving Repr, DecidableEq

/-- The `num_channels` match at the top of both `process_frame`s. -/
def channelCount : AudioChannelLayout → Nat
  | .mono => 1
  | .left => 1
  | .right => 1
  | .l_r => 2
  | .r_l => 2

/-- Panics reachable inside the audio conversion functions. -/
inductive AudioPanic
  | todoUnimplemented
  | indexOutOfBounds
  | lengthMismatch
deriving Repr, DecidableEq

/-- The audio formats whose sample values the source computes with
(`AudioFormat::I16 | U16 | I32`); their samples are modelled in `ℚ`. -/
inductive QFormat
  | i16 | u16 | i32
deriving Repr, DecidableEq

/-- `bytes_per_sample` / `num_bytes` for the arithmetic formats. -/
def QFormat.bytesPerSample : QFormat → Nat
  | .i16 => 2
  | .u16 => 2
  | .i32 => 4

/-- `f64::round`: round half away from zero. -/
def roundHalfAway (q : ℚ) : ℤ :=
  if 0 ≤ q then ⌊q + 1/2⌋ else -⌊-q + 1/2⌋

/-- A saturating float-to-int cast (Rust `as i16` / `as i32`). -/
def clampInt (lo hi n : ℤ) : ℤ := max lo (min hi n)

/-- Two little-endian bytes of `u % 2^16`. -/
def leBytes2 (u : Nat) : List Nat := [u % 256, u / 256 % 256]

/-- Four little-endian bytes of `u % 2^32`. -/
def leBytes4 (u : Nat) : List Nat :=
  [u % 256, u / 256 % 256, u / 2 ^ 16 % 256, u / 2 ^ 24 % 256]

/-- Reassemble two little-endian bytes. -/
def fromLe2 (bytes : List Nat) : Nat := bytes.getD 0 0 + 256 * bytes.getD 1 0

/-- Reassemble four little-endian bytes. -/
def fromLe4 (bytes : List Nat) : Nat :=
  bytes.getD 0 0 + 256 * bytes.getD 1 0 + 2 ^ 16 * bytes.getD 2 0 + 2 ^ 24 * bytes.getD 3 0

/-- Two's-complement reading of a 16-bit pattern (`read_i16_into`). -/
def decTwos16 (u : Nat) : ℤ := if u < 2 ^ 15 then (u : ℤ) else (u : ℤ) - 2 ^ 16

/-- Two's-complement reading of a 32-bit pattern (`read_i32_into`). -/
def decTwos32 (u : Nat) : ℤ := if u < 2 ^ 31 then (u : ℤ) else (u : ℤ) - 2 ^ 32

/-- `FromAudioF32.process_frame`, one sample: quantise a `ℚ` sample and
produce its little-endian bytes (the `match self.audio_format` arm of
the write loop, `io.rs` 425–442). -/
def encSampleQ : QFormat → ℚ → List Nat
  | .i16, s =>
    let n := clampInt (-(2 ^ 15)) (2 ^ 15 - 1) (roundHalfAway (s * 32767))
    leBytes2 (n % 2 ^ 16).toNat
  | .u16, s =>
    let n := clampInt 0 (2 ^ 16 - 1) (roundHalfAway ((s + 1) / 2 * 65535))
    leBytes2 (n % 2 ^ 16).toNat
  | .i32, s =>
    let n := clampInt (-(2 ^ 31)) (2 ^ 31 - 1) (roundHalfAway (s * (2 ^ 31 - 1)))
    leBytes4 (n % 2 ^ 32).toNat

/-- `ToAudioF32.process_frame`, one sample: decode the bytes and scale
back to `[-1, 1]` (`io.rs` 331–368). -/
def decSampleQ : QFormat → List Nat → ℚ
  | .i16, bytes => (decTwos16 (fromLe2 bytes) : ℚ) / 32767
  | .u16, bytes => (fromLe2 bytes : ℚ) / 65535 * 2 - 1
  | .i32, bytes => (decTwos32 (fromLe4 bytes) : ℚ) / (2 ^ 31 - 1)

/-- `write_f32_into` for one sample, at pattern level. -/
def encSampleF32 (bits : Nat) : List Nat := leBytes4 bits

/-- `read_f32_into` for one sample, at pattern level. -/
def decSampleF32 (bytes : List Nat) : Nat := fromLe4 bytes

namespace FromAudioF32

/-- The inner channel loop of the write loop: encode, in channel order,
the `j`-th sample of every channel buffer. In the source each encoded
group is written at `pos = j*nc*nb + c*nb`; the groups tile the output
buffer consecutively in exactly this loop order, so concatenation
reproduces the positional writes. An out-of-range `buffers[c][j]` index
is the Rust slice panic. -/
def encodeRow {σ : Type} (enc : σ → List Nat) (j : Nat) :
    List (List σ) → Except AudioPanic (List Nat)
  | [] => .ok []
  | chan :: rest =>
    match chan.get? j with
    | some s => (encodeRow enc j rest).map (fun bs => enc s ++ bs)
    | none => .error .indexOutOfBounds

/-- The outer sample loop of the write loop. -/
def encodeRows {σ : Type} (enc : σ → List Nat) (bufs : List (List σ)) :
    List Nat → Except AudioPanic (List Nat)
  | [] => .ok []
  | j :: js => do
    let row ← encodeRow enc j bufs
    let rest ← encodeRows enc bufs js
    .ok (row ++ rest)

/-- `FromAudioF32::process_frame`, generic in the per-sample encoder:
check the channel count against the layout (`todo!` on mismatch), take
`num_samples` from the first buffer, then run the interleaving write
loop. -/
def processFrameG {σ : Type} (enc : σ → List Nat) (channel_layout : AudioChannelLayout)
    (buffers : List (List σ)) : Except AudioPanic (List Nat) :=
  let num_channels := channelCount channel_layout
  if buffers.length ≠ num_channels then .error .todoUnimplemented
  else
    let num_samples := (buffers.headD []).length
    encodeRows enc buffers (List.range num_samples)

/-- `FromAudioF32::process_frame` for the arithmetic formats. -/
def processFrameQ (audio_format : QFormat) (channel_layout : AudioChannelLayout)
    (buffers : List (List ℚ)) : Except AudioPanic (List Nat) :=
  processFrameG (encSampleQ audio_format) channel_layout buffers

/-- `FromAudioF32::process_frame` for `AudioFormat::F32`, with samples
as 32-bit patterns. -/
def processFrameF32 (channel_layout : AudioChannelLayout) (buffers : List (List Nat)) :
    Except AudioPanic (List Nat) :=
  processFrameG encSampleF32 channel_layout buffers

end FromAudioF32

namespace ToAudioF32

/-- `iter().skip(a).step_by(k)`: elements at indices `a, a+k, a+2k, …`
of the already-skipped list (`k = 0` never occurs because the source
takes `max 1`). `countdown` is the number of elements still to discard
before the next kept one. -/
def everyNthAux {α : Type} (k : Nat) : Nat → List α → List α
  | _, [] => []
  | 0, a :: rest => a :: everyNthAux k (k - 1) rest
  | c + 1, _ :: rest => everyNthAux k c rest

/-- `iter().step_by(k)` on the already-skipped list. -/
def everyNth {α : Type} (k : Nat) (l : List α) : List α :=
  everyNthAux k 0 l

/-- The sequential chunk decode performed by `read_*_into` followed by
the per-sample map: `count` samples, each from the next `nb` bytes. -/
def decodeChunks {σ : Type} (nb : Nat) (dec : List Nat → σ) :
    Nat → List Nat → List σ
  | 0, _ => []
  | n + 1, bytes => dec (bytes.take nb) :: decodeChunks nb dec n (bytes.drop nb)

/-- `ToAudioF32::process_frame`, one channel (`io.rs` 323–369): the
byte selection `skip(i * bps).step_by((bps * i).max(1))`, the
`grouped_sample_buffer` sizing `(buffer.len() / num_channels) / bps`,
the `byteorder` length assertion, and the chunk decode. -/
def channelPass {σ : Type} (nb : Nat) (dec : List Nat → σ) (num_channels : Nat)
    (audio : List Nat) (i : Nat) : Except AudioPanic (List σ) :=
  let buffer := everyNth (max (nb * i) 1) (audio.drop (i * nb))
  let grouped_len := buffer.length / num_channels / nb
  if buffer.length ≠ nb * grouped_len then .error .lengthMismatch
  else .ok (decodeChunks nb dec grouped_len buffer)

/-- The `for i in 0..num_channels` loop pushing each decoded channel
buffer onto `processed_buffers`, in order. -/
def channelLoop {σ : Type} (nb : Nat) (dec : List Nat → σ) (num_channels : Nat)
    (audio : List Nat) : List Nat → Except AudioPanic (List (List σ))
  | [] => .ok []
  | i :: is => do
    let chan ← channelPass nb dec num_channels audio i
    let rest ← channelLoop nb dec num_channels audio is
    .ok (chan :: rest)

/-- `ToAudioF32::process_frame`, generic in the per-sample decoder. -/
def processFrameG {σ : Type} (nb : Nat) (dec : List Nat → σ)
    (channel_layout : AudioChannelLayout) (audio : List Nat) :
    Except AudioPanic (List (List σ)) :=
  let num_channels := channelCount channel_layout
  channelLoop nb dec num_channels audio (List.range num_channels)

/-- `ToAudioF32::process_frame` for the arithmetic formats. -/
def processFrameQ (audio_format : QFormat) (channel_layout : AudioChannelLayout)
    (audio : List Nat) : Except AudioPanic (List (List ℚ)) :=
  processFrameG audio_format.bytesPerSample (decSampleQ audio_format) channel_layout audio

/-- `ToAudioF32::process_frame` for `AudioFormat::F32`, at pattern
level. -/
def processFrameF32 (channel_layout : AudioChannelLayout) (audio : List Nat) :
    Except AudioPanic (List (List Nat)) :=
  processFrameG 4 decSampleF32 channel_layout audio

end ToAudioF32

/-- `ToAudioF32 ∘ FromAudioF32` with matching format and layout, for the
arithmetic formats. -/
def audioRoundTripQ (fmt : QFormat) (layout : AudioChannelLayout)
    (buffers : List (List ℚ)) : Except AudioPanic (List (List ℚ)) :=
  (FromAudioF32.processFrameQ fmt layout buffers).bind (ToAudioF32.processFrameQ fmt layout)

/-- `ToAudioF32 ∘ FromAudioF32` for `f32`, at pattern level. -/
def audioRoundTripF32 (layout : AudioChannelLayout) (buffers : List (List Nat)) :
    Except AudioPanic (List (List Nat)) :=
  (FromAudioF32.processFrameF32 layout buffers).bind (ToAudioF32.processFrameF32 layout)

/-! # Theorems -/

/-! ## Claim C3 — `submit()` succeeds once, then errors -/

/-- The `submitted` flag is set after any number of calls. -/
theorem submitSeq_state (n : Nat) :
    (ProcessFrameContextImpl.submitSeq n).2 = ⟨true⟩ := by
  induction n with
  | zero => rfl
  | succ n ih =>
    simp [ProcessFrameContextImpl.submitSeq, ih, ProcessFrameContextImpl.submit]

/-- C3. On a fresh `ProcessFrameContextImpl` the first `submit()` call
returns the `FrameContext` token, and every subsequent call returns the
`"Already submitted"` error. The token is a field-less value that no
runtime operation invalidates, so the first call's result stands. -/
theorem claim3_submit_once (n : Nat) (h : 1 ≤ n) :
    (ProcessFrameContextImpl.submitSeq 0).1 = .ok ⟨⟩ ∧
    (ProcessFrameContextImpl.submitSeq n).1 = .error "Already submitted" := by
  refine ⟨rfl, ?_⟩
  match n, h with
  | m + 1, _ =>
    have hs := submitSeq_state m
    simp [ProcessFrameContextImpl.submitSeq, hs, ProcessFrameContextImpl.submit]

/-- C3 witness: the second call on the same context errors while the
first returned the token. -/
theorem claim3_submit_once_witness :
    (ProcessFrameContextImpl.submitSeq 0).1 = .ok ⟨⟩ ∧
    (ProcessFrameContextImpl.submitSeq 1).1 = .error "Already submitted" :=
  claim3_submit_once 1 (by decide)

/-! ## Claim C6 — `no_receivers` versus dropped pipes

`ChannelInner.senders` is append-only: `subscribe` pushes a sender and
nothing removes one when the paired receiver (`Pipe`) is dropped —
`Channel::send` merely ignores the failed `blocking_send`. Hence
`no_receivers()` ("`senders.is_empty()`") keeps returning `false` after
every receiver has been dropped. -/

/-- A channel with one subscriber whose `Pipe` has been dropped. -/
def c6Channel : ChannelState Nat := Channel.dropPipe (Channel.subscribe ⟨[]⟩) 0

/-- C6 counterexample: after the only subscriber's receiver is dropped
there are zero live subscribers, yet `no_receivers()` still returns
`false`, refuting the claim's "in particular" part. -/
theorem claim6_counterexample :
    c6Channel.liveCount = 0 ∧ Channel.noReceivers c6Channel = false := by
  decide

/-- C6 (amended): `no_receivers()` returns true iff the sender vector is
empty, i.e. iff `subscribe()` has never been called; dropping a `Pipe`
neither removes its sender nor changes `no_receivers()`. -/
theorem claim6_noReceivers {α : Type} (ch : ChannelState α) (k : Nat) :
    (Channel.noReceivers ch = true ↔ ch.subscribers = []) ∧
    (Channel.dropPipe ch k).subscribers.length = ch.subscribers.length ∧
    Channel.noReceivers (Channel.dropPipe ch k) = Channel.noReceivers ch := by
  refine ⟨?_, ?_, ?_⟩
  · simp [Channel.noReceivers, List.isEmpty_iff]
  · simp [Channel.dropPipe]
  · simp only [Channel.noReceivers, Channel.dropPipe, List.map_id']
    cases ch.subscribers with
    | nil => rfl
    | cons a rest => cases k <;> rfl

/-! ## Claim C8 — `connect_video_pipe` -/

/-- Looking a key up in an extended association list. -/
theorem lookupAssoc_append_self {κ α : Type} [DecidableEq κ]
    (l : List (κ × α)) (k : κ) (v : α) (h : lookupAssoc l k = none) :
    lookupAssoc (l ++ [(k, v)]) k = some v := by
  induction l with
  | nil => simp [lookupAssoc]
  | cons p rest ih =>
    by_cases hk : p.1 = k
    · simp [lookupAssoc, hk] at h
    · simp only [lookupAssoc, hk, if_neg] at h ⊢
      exact ih h

/-- C8. `connect_video_pipe` installs the mapping iff the input id is
declared and currently unconnected; an undeclared input yields
`InputDoesNotExist`, an already-connected one yields
`InputAlreadyConnectedTo`, and in both error cases the state is
untouched. -/
theorem claim8_connect_video_pipe (st : VideoConnectState) (input : VideoInputId)
    (pipe : VideoPipe) :
    (st.video_input_ids.contains input = true →
      lookupAssoc st.connected_video_pipes input = none →
      (connectVideoPipe st input pipe).1 = .ok () ∧
      (connectVideoPipe st input pipe).2.connected_video_pipes =
        st.connected_video_pipes ++ [(input, (pipe.id, pipe))] ∧
      lookupAssoc (connectVideoPipe st input pipe).2.connected_video_pipes input =
        some (pipe.id, pipe) ∧
      (connectVideoPipe st input pipe).2.video_input_ids = st.video_input_ids) ∧
    (st.video_input_ids.contains input = false →
      (connectVideoPipe st input pipe).1 = .error (.inputDoesNotExist input) ∧
      (connectVideoPipe st input pipe).2 = st) ∧
    (∀ out p, st.video_input_ids.contains input = true →
      lookupAssoc st.connected_video_pipes input = some (out, p) →
      (connectVideoPipe st input pipe).1 = .error (.inputAlreadyConnectedTo input out) ∧
      (connectVideoPipe st input pipe).2 = st) := by
  refine ⟨fun hdecl hfree => ?_, fun hnodecl => ?_, fun out p hdecl hconn => ?_⟩
  · have hmem : input ∈ st.video_input_ids := by simpa using hdecl
    simp [connectVideoPipe, hmem, hfree, lookupAssoc_append_self]
  · have hmem : input ∉ st.video_input_ids := by simpa using hnodecl
    simp [connectVideoPipe, hmem]
  · have hmem : input ∈ st.video_input_ids := by simpa using hdecl
    simp [connectVideoPipe, hmem, hconn]

/-- C8 witness: a concrete successful connection and both concrete
rejections. -/
theorem claim8_connect_video_pipe_witness :
    (connectVideoPipe ⟨["in1"], []⟩ "in1" ⟨"out1", none⟩).1 = .ok () ∧
    (connectVideoPipe ⟨["in1"], []⟩ "in2" ⟨"out1", none⟩).1 =
      .error (.inputDoesNotExist "in2") ∧
    (connectVideoPipe ⟨["in1"], [("in1", ("out0", ⟨"out0", none⟩))]⟩ "in1"
        ⟨"out1", none⟩).1 = .error (.inputAlreadyConnectedTo "in1" "out0") :=
  ⟨((claim8_connect_video_pipe ⟨["in1"], []⟩ "in1" ⟨"out1", none⟩).1
      (by decide) (by decide)).1,
    ((claim8_connect_video_pipe ⟨["in1"], []⟩ "in2" ⟨"out1", none⟩).2.1
      (by decide)).1,
    ((claim8_connect_video_pipe ⟨["in1"], [("in1", ("out0", ⟨"out0", none⟩))]⟩ "in1"
        ⟨"out1", none⟩).2.2 "out0" ⟨"out0", none⟩ (by decide) (by decide)).1⟩

/-! ## Claim C1 — unconnected video input

`run_node`'s first gate (`node_context.rs` 567–576) compares the number
of connected video pipes with the number of declared video inputs and
`continue`s — without calling `node.process_frame` — whenever they
differ. A node with one declared video input and no connection
therefore never reaches `process_frame`, and no black frame is
delivered to it. -/

/-- A node that declares one video input, has no pipe connected to it,
and has a downstream subscriber on its one video output. -/
def c1Input : IterInput where
  audio_input_ids := []
  video_input_ids := ["video-in"]
  audio_outputs := []
  video_outputs := [("video-out", ⟨[⟨true, []⟩]⟩)]
  connected_audio_pipes := []
  connected_video_pipes := []
  pending_state := none
  node_accepts_state := true
  pushed_semaphores := []

/-- C1 counterexample: in the claimed scenario the scheduler iteration
does not invoke `process_frame` at all — it takes the
connectivity-gate `continue`. -/
theorem claim1_counterexample :
    (runIteration none none c1Input).processFrameInvoked = false ∧
    runIteration none none c1Input = .skipped .videoInputsNotConnected := by
  constructor <;> rfl

/-- C1 (amended): for a node that declares at least one video input
while no video pipe is connected, every scheduler iteration skips the
node via the connectivity gate and `process_frame` is not invoked
(black frames of default dimensions (256, 1) would only be synthesised
by iterations that pass the gate). -/
theorem claim1_unconnected_input_skips (prev_black : Option (Nat × Nat × VideoFrameWithId))
    (prev_silence : Option AudioFrameWithId) (inp : IterInput)
    (h1 : inp.video_input_ids ≠ []) (h2 : inp.connected_video_pipes = []) :
    runIteration prev_black prev_silence inp = .skipped .videoInputsNotConnected ∧
    (runIteration prev_black prev_silence inp).processFrameInvoked = false := by
  have hlen : inp.video_input_ids.length ≠ 0 := by
    have := List.length_pos.mpr h1
    omega
  have hgate : ¬ inp.video_input_ids.isEmpty ∧
      inp.connected_video_pipes.length ≠ inp.video_input_ids.length := by
    constructor
    · simp [List.isEmpty_iff, h1]
    · simp [h2]
      omega
  have : runIteration prev_black prev_silence inp = .skipped .videoInputsNotConnected := by
    unfold runIteration
    rw [if_pos hgate]
  exact ⟨this, by rw [this]; rfl⟩

/-- C1 amended-claim witness at the concrete scenario. -/
theorem claim1_unconnected_input_skips_witness :
    runIteration none none
      { audio_input_ids := []
        video_input_ids := ["video-in"]
        audio_outputs := []
        video_outputs := [("video-out", ⟨[⟨true, []⟩]⟩)]
        connected_audio_pipes := []
        connected_video_pipes := []
        pending_state := none
        node_accepts_state := true
        pushed_semaphores := [] } = .skipped .videoInputsNotConnected :=
  (claim1_unconnected_input_skips none none _ (by decide) rfl).1

/-! ## Claim C5 — end-of-stream on a connected pipe

When a connected pipe's `next_frame()` returns `None`, `run_node`
pushes the input onto the substitution list and then immediately hits
`todo!("Tell context to disconnect pipe")` (`node_context.rs` 650 and
670) — a panic that aborts the scheduler task. The substitution and
the `process_frame` call of that iteration never happen, although the
`todo!` message itself records the specified intent ("mark the pipe
for disconnection"). -/

/-- A node with one connected video input whose upstream channel has
closed: `next_frame()` yields end-of-stream this tick. -/
def c5Input : IterInput where
  audio_input_ids := []
  video_input_ids := ["video-in"]
  audio_outputs := []
  video_outputs := []
  connected_audio_pipes := []
  connected_video_pipes := [("video-in", ("up-out", ⟨"up-out", none⟩))]
  pending_state := none
  node_accepts_state := true
  pushed_semaphores := []

/-- C5: at the failing input (a connected video pipe reporting
end-of-stream) the iteration panics in the `todo!` instead of
substituting a black frame and proceeding to `process_frame`. -/
theorem claim5_eos_panics :
    runIteration none none c5Input = .panicked ∧
    (runIteration none none c5Input).processFrameInvoked = false := by
  constructor <;> rfl

/-! ## Claim C2 — downstream barrier before upstream acknowledgment -/

/-- `true` iff the event is not an `awaitDownstream`. -/
def TraceEv.notAwait : TraceEv → Bool
  | .awaitDownstream _ => false
  | _ => true

/-- `true` iff the event is not a `signalUpstream`. -/
def TraceEv.notSignal : TraceEv → Bool
  | .signalUpstream _ => false
  | _ => true

/-- No `awaitDownstream` occurs in the list. -/
def noAwaitDownstream (l : List TraceEv) : Bool := l.all TraceEv.notAwait

/-- Every `awaitDownstream` in the list occurs strictly before every
`signalUpstream`: once a signal has happened, no await may follow. -/
def awaitsBeforeSignals : List TraceEv → Bool
  | [] => true
  | .signalUpstream _ :: rest => noAwaitDownstream rest
  | _ :: rest => awaitsBeforeSignals rest

/-- The downstream semaphores awaited in a trace, in order. -/
def awaitedSems (l : List TraceEv) : List Nat :=
  l.filterMap fun e => match e with
    | .awaitDownstream s => some s
    | _ => none

/-- Signals-only suffixes contain no awaits. -/
theorem noAwaitDownstream_signals (us : List Nat) :
    noAwaitDownstream (us.map .signalUpstream) = true := by
  induction us with
  | nil => rfl
  | cons u rest ih => simp [noAwaitDownstream, TraceEv.notAwait, ih]

/-- A signals-only list satisfies the ordering predicate. -/
theorem awaitsBeforeSignals_signals (us : List Nat) :
    awaitsBeforeSignals (us.map .signalUpstream) = true := by
  cases us with
  | nil => rfl
  | cons u rest => simpa [awaitsBeforeSignals] using noAwaitDownstream_signals rest

/-- Prepending signal-free events preserves the ordering predicate. -/
theorem awaitsBeforeSignals_append (l1 l2 : List TraceEv)
    (h1 : l1.all TraceEv.notSignal = true) (h2 : awaitsBeforeSignals l2 = true) :
    awaitsBeforeSignals (l1 ++ l2) = true := by
  induction l1 with
  | nil => simpa using h2
  | cons e rest ih =>
    simp only [List.all_cons, Bool.and_eq_true] at h1
    cases e with
    | applyState a => simpa [awaitsBeforeSignals] using ih h1.2
    | processFrameCall => simpa [awaitsBeforeSignals] using ih h1.2
    | awaitDownstream s => simpa [awaitsBeforeSignals] using ih h1.2
    | signalUpstream s => simp [TraceEv.notSignal] at h1

/-- `awaitedSems` distributes over append. -/
theorem awaitedSems_append (l1 l2 : List TraceEv) :
    awaitedSems (l1 ++ l2) = awaitedSems l1 ++ awaitedSems l2 :=
  List.filterMap_append l1 l2 _

/-- The awaits of an awaits-only list. -/
theorem awaitedSems_awaits (ds : List Nat) :
    awaitedSems (ds.map .awaitDownstream) = ds := by
  induction ds with
  | nil => rfl
  | cons d rest ih => simpa [awaitedSems] using ih

/-- A signals-only list contains no awaits. -/
theorem awaitedSems_signals (us : List Nat) :
    awaitedSems (us.map .signalUpstream) = [] := by
  induction us with
  | nil => rfl
  | cons u rest ih => simp [awaitedSems, ih]

/-- An await-free list contributes nothing to `awaitedSems`. -/
theorem awaitedSems_of_noAwait (l : List TraceEv) (h : noAwaitDownstream l = true) :
    awaitedSems l = [] := by
  induction l with
  | nil => rfl
  | cons e rest ih =>
    simp only [noAwaitDownstream, List.all_cons, Bool.and_eq_true] at h
    cases e with
    | awaitDownstream s => simp [TraceEv.notAwait] at h
    | applyState a => simpa [awaitedSems] using ih h.2
    | processFrameCall => simpa [awaitedSems] using ih h.2
    | signalUpstream s => simpa [awaitedSems] using ih h.2

/-- The state-application events contain neither awaits nor signals. -/
theorem stateTrace_quiet (pending : Option String) (accepted : Bool) :
    noAwaitDownstream (stateTrace pending accepted) = true ∧
    (stateTrace pending accepted).all TraceEv.notSignal = true := by
  cases pending <;> simp [stateTrace, noAwaitDownstream, TraceEv.notAwait, TraceEv.notSignal]

/-- The post-process trace awaits exactly the drained downstream
semaphores, and all awaits precede all upstream signals. -/
theorem iterationTrace_spec (st : List TraceEv) (ds us : List Nat)
    (hq : noAwaitDownstream st = true) (hs : st.all TraceEv.notSignal = true) :
    awaitedSems (iterationTrace st ds us) = ds ∧
    awaitsBeforeSignals (iterationTrace st ds us) = true := by
  constructor
  · simp only [iterationTrace, awaitedSems_append, awaitedSems_awaits, awaitedSems_signals,
      awaitedSems_of_noAwait st hq]
    simp [awaitedSems]
  · have h1 : (st ++ [TraceEv.processFrameCall] ++ ds.map TraceEv.awaitDownstream).all
        TraceEv.notSignal = true := by
      simp only [List.all_append, Bool.and_eq_true]
      refine ⟨⟨hs, by simp [TraceEv.notSignal]⟩, ?_⟩
      simp [List.all_map, Function.comp, TraceEv.notSignal]
    have := awaitsBeforeSignals_append _ (us.map TraceEv.signalUpstream) h1
      (awaitsBeforeSignals_signals us)
    simpa [iterationTrace, List.append_assoc] using this

/-- C2. In every iteration that reaches the post-process phase, the
trace awaits exactly the semaphores drained from the node's
`ChannelSemaphoreProvider` (in order), and every such downstream await
occurs strictly before every upstream `signal` of the iteration. -/
theorem claim2_barrier (prev_black : Option (Nat × Nat × VideoFrameWithId))
    (prev_silence : Option AudioFrameWithId) (inp : IterInput) (out : RanOutcome)
    (h : runIteration prev_black prev_silence inp = .ran out) :
    awaitedSems out.trace = inp.pushed_semaphores ∧
    awaitsBeforeSignals out.trace = true := by
  unfold runIteration at h
  split at h
  · exact absurd h (by simp)
  split at h
  · exact absurd h (by simp)
  split at h
  · exact absurd h (by simp)
  split at h
  · exact absurd h (by simp)
  split at h
  · exact absurd h (by simp)
  split at h
  · exact absurd h (by simp)
  simp only [IterOutcome.ran.injEq] at h
  subst h
  exact iterationTrace_spec _ _ _ (stateTrace_quiet _ _).1 (stateTrace_quiet _ _).2

/-- A source node (no inputs, no outputs registered yet) whose
`process_frame` pushed one frame, registering semaphore 5. -/
def c2Input : IterInput where
  audio_input_ids := []
  video_input_ids := []
  audio_outputs := []
  video_outputs := []
  connected_audio_pipes := []
  connected_video_pipes := []
  pending_state := none
  node_accepts_state := true
  pushed_semaphores := [5]

/-- The outcome `runIteration` computes for `c2Input`. -/
def c2Outcome : RanOutcome where
  video_frames := []
  audio_frames := []
  black := mkBlackFrame 256 1
  silence := mkSilenceFrame
  new_prev_black := (256, 1, mkBlackFrame 256 1)
  new_prev_silence := mkSilenceFrame
  trace := iterationTrace [] [5] []

/-- C2 witness: the concrete iteration awaits exactly semaphore 5 and
its trace keeps awaits before signals. -/
theorem claim2_barrier_witness :
    awaitedSems c2Outcome.trace = [5] ∧ awaitsBeforeSignals c2Outcome.trace = true :=
  claim2_barrier none none c2Input c2Outcome rfl

/-! ## Claim C4 — one delivery per subscriber per send -/

/-- What one `send` does to the subscriber vector: subscriber `k`
receives `(v, base + k)` — the provider counter is incremented once per
sender, in order. -/
def sendSpec {α : Type} (v : α) (base : Nat) : List (Subscriber α) → List (Subscriber α)
  | [] => []
  | sub :: rest =>
    (if sub.isOpen then { sub with queue := sub.queue ++ [(v, base)] } else sub) ::
      sendSpec v (base + 1) rest

/-- The deliveries subscriber `k` of `K` receives from sending `vs`
starting at provider counter `base`: the `t`-th is `(vs t, base + t*K + k)`. -/
def manySpec {α : Type} : List α → Nat → Nat → Nat → List (α × Nat)
  | [], _, _, _ => []
  | v :: vs, base, K, k => (v, base + k) :: manySpec vs (base + K) K k

/-- The send loop, characterised. -/
theorem sendLoop_eq {α : Type} (v : α) (subs : List (Subscriber α)) (p : SemProvider) :
    Channel.sendLoop v subs p =
      (sendSpec v p.nextSem subs,
        ⟨p.nextSem + subs.length, p.registered ++ List.range' p.nextSem subs.length⟩) := by
  induction subs generalizing p with
  | nil => simp [Channel.sendLoop, sendSpec]
  | cons sub rest ih =>
    simp only [Channel.sendLoop, SemProvider.getSemaphore, ih, sendSpec,
      Prod.mk.injEq, SemProvider.mk.injEq]
    refine ⟨trivial, ?_, ?_⟩
    · simp only [List.length_cons]; omega
    · simp [List.range'_succ]

/-- `Channel.send`, characterised. -/
theorem send_eq {α : Type} (ch : ChannelState α) (p : SemProvider) (v : α) :
    Channel.send ch p v =
      (⟨sendSpec v p.nextSem ch.subscribers⟩,
        ⟨p.nextSem + ch.subscribers.length,
          p.registered ++ List.range' p.nextSem ch.subscribers.length⟩) := by
  simp only [Channel.send, sendLoop_eq]

/-- Pointwise description of `sendSpec`. -/
theorem sendSpec_get? {α : Type} (v : α) (subs : List (Subscriber α)) (base k : Nat) :
    (sendSpec v base subs).get? k =
      (subs.get? k).map fun sub =>
        if sub.isOpen then { sub with queue := sub.queue ++ [(v, base + k)] } else sub := by
  induction subs generalizing base k with
  | nil => simp [sendSpec]
  | cons sub rest ih =>
    cases k with
    | zero => simp [sendSpec]
    | succ k =>
      simp only [sendSpec, List.get?_cons_succ, ih, Nat.add_comm base 1]
      have : base + 1 + k = base + (k + 1) := by omega
      rw [Nat.add_comm 1 base, this]

/-- `sendSpec` preserves the number of subscribers. -/
theorem sendSpec_length {α : Type} (v : α) (subs : List (Subscriber α)) (base : Nat) :
    (sendSpec v base subs).length = subs.length := by
  induction subs generalizing base with
  | nil => rfl
  | cons sub rest ih => simp [sendSpec, ih]

/-- `sendSpec` preserves openness of every subscriber. -/
theorem sendSpec_isOpen {α : Type} (v : α) (subs : List (Subscriber α)) (base : Nat)
    (h : ∀ s ∈ subs, s.isOpen = true) :
    ∀ s ∈ sendSpec v base subs, s.isOpen = true := by
  induction subs generalizing base with
  | nil => simp [sendSpec]
  | cons sub rest ih =>
    intro s hs
    simp only [sendSpec, List.mem_cons] at hs
    rcases hs with rfl | hs
    · have := h sub (List.mem_cons_self sub rest)
      simp [this]
    · exact ih _ (fun s hs => h s (List.mem_cons_of_mem _ hs)) s hs

/-- The `t`-th delivery of `manySpec`. -/
theorem manySpec_get? {α : Type} (vs : List α) (base K k t : Nat) :
    (manySpec vs base K k).get? t =
      (vs.get? t).map fun v => (v, base + t * K + k) := by
  induction vs generalizing base t with
  | nil => simp [manySpec]
  | cons v rest ih =>
    cases t with
    | zero => simp [manySpec]
    | succ t =>
      simp only [manySpec, List.get?_cons_succ, ih]
      have : base + K + t * K = base + (t + 1) * K := by
        rw [Nat.succ_mul]; omega
      rw [this]

/-- The values of `manySpec` are the sent values, in production order. -/
theorem manySpec_fst {α : Type} (vs : List α) (base K k : Nat) :
    (manySpec vs base K k).map Prod.fst = vs := by
  induction vs generalizing base with
  | nil => rfl
  | cons v rest ih => simp [manySpec, ih]

/-- One delivery per completed send. -/
theorem manySpec_length {α : Type} (vs : List α) (base K k : Nat) :
    (manySpec vs base K k).length = vs.length := by
  induction vs generalizing base with
  | nil => rfl
  | cons v rest ih => simp [manySpec, ih]

/-- `manySpec` for one more value. -/
theorem manySpec_cons {α : Type} (v : α) (vs : List α) (base K k : Nat) :
    manySpec (v :: vs) base K k = (v, base + k) :: manySpec vs (base + K) K k := rfl

/-- `Channel.sendMany` pointwise: with every receiver alive, subscriber
`k` ends with its old queue extended by exactly the `manySpec`
deliveries, and the provider counter advances by `vs.length * K`. -/
theorem sendMany_get? {α : Type} (vs : List α) (ch : ChannelState α) (p : SemProvider)
    (hopen : ∀ s ∈ ch.subscribers, s.isOpen = true) (k : Nat)
    (hk : k < ch.subscribers.length) :
    ∃ sub, ch.subscribers.get? k = some sub ∧
      (Channel.sendMany ch p vs).1.subscribers.get? k =
        some ⟨true, sub.queue ++ manySpec vs p.nextSem ch.subscribers.length k⟩ ∧
      (Channel.sendMany ch p vs).2.nextSem =
        p.nextSem + vs.length * ch.subscribers.length := by
  induction vs generalizing ch p with
  | nil =>
    obtain ⟨sub, hsub⟩ : ∃ sub, ch.subscribers.get? k = some sub :=
      ⟨_, List.get?_eq_get hk⟩
    refine ⟨sub, hsub, ?_, by simp [Channel.sendMany]⟩
    have hso : sub.isOpen = true := hopen sub (List.get?_mem hsub)
    have : sub = ⟨true, sub.queue⟩ := by
      cases sub with
      | mk o q => simp only [Subscriber.mk.injEq] at hso ⊢; simp [hso]
    simp only [Channel.sendMany, manySpec, List.append_nil]
    rw [hsub, ← this]
  | cons v vs ih =>
    have hsend := send_eq ch p v
    set K := ch.subscribers.length with hK
    have hlen : (Channel.send ch p v).1.subscribers.length = K := by
      rw [hsend]; simpa using sendSpec_length v ch.subscribers p.nextSem
    have hopen' : ∀ s ∈ (Channel.send ch p v).1.subscribers, s.isOpen = true := by
      rw [hsend]; exact sendSpec_isOpen v ch.subscribers p.nextSem hopen
    have hk' : k < (Channel.send ch p v).1.subscribers.length := by rw [hlen]; exact hk
    obtain ⟨sub', hsub', hres, hnext⟩ := ih (Channel.send ch p v).1 (Channel.send ch p v).2
      hopen' hk'
    obtain ⟨sub, hsub⟩ : ∃ sub, ch.subscribers.get? k = some sub := by
      rw [List.get?_eq_get (l := ch.subscribers) hk]; exact ⟨_, rfl⟩
    have hso : sub.isOpen = true := hopen sub (List.get?_mem hsub)
    have hsub'eq : sub' = { sub with queue := sub.queue ++ [(v, p.nextSem + k)] } := by
      have : (Channel.send ch p v).1.subscribers.get? k =
          some { sub with queue := sub.queue ++ [(v, p.nextSem + k)] } := by
        rw [hsend]
        simp only [sendSpec_get?, hsub, Option.map_some']
        rw [if_pos hso]
      rw [this] at hsub'
      exact (Option.some_injective _ hsub').symm
    have hnext2 : (Channel.send ch p v).2.nextSem = p.nextSem + K := by
      rw [hsend]
    refine ⟨sub, hsub, ?_, ?_⟩
    · have : Channel.sendMany ch p (v :: vs) =
          Channel.sendMany (Channel.send ch p v).1 (Channel.send ch p v).2 vs := rfl
      rw [this, hres, hsub'eq, hnext2, manySpec_cons]
      have hlen2 : (Channel.send ch p v).1.subscribers.length = K := hlen
      simp [hlen2, List.append_assoc]
    · have hstep : Channel.sendMany ch p (v :: vs) =
          Channel.sendMany (Channel.send ch p v).1 (Channel.send ch p v).2 vs := rfl
      rw [hstep, hnext, hnext2]
      have e1 : (v :: vs).length * K = vs.length * K + K := by
        rw [List.length_cons, Nat.succ_mul]
      have e2 : vs.length * (Channel.send ch p v).1.subscribers.length =
          vs.length * K := by rw [hlen]
      omega

/-- Distinctness of the semaphore ids `base + t*K + k`. -/
theorem semId_injective (base K t k t' k' : Nat) (hk : k < K) (hk' : k' < K)
    (hne : (t, k) ≠ (t', k')) :
    base + t * K + k ≠ base + t' * K + k' := by
  intro heq
  have h1 : t * K + k = t' * K + k' := by omega
  rcases Nat.lt_trichotomy t t' with hlt | hteq | hgt
  · have : t * K + k < t' * K + k' := by
      calc t * K + k < t * K + K := by omega
      _ = (t + 1) * K := (Nat.succ_mul t K).symm
      _ ≤ t' * K := Nat.mul_le_mul_right K hlt
      _ ≤ t' * K + k' := Nat.le_add_right _ _
    omega
  · subst hteq
    have : k = k' := by omega
    exact hne (by rw [this])
  · have : t' * K + k' < t * K + k := by
      calc t' * K + k' < t' * K + K := by omega
      _ = (t' + 1) * K := (Nat.succ_mul t' K).symm
      _ ≤ t * K := Nat.mul_le_mul_right K hgt
      _ ≤ t * K + k := Nat.le_add_right _ _
    omega

/-- C4. With `K` current subscribers (all receivers alive), every
completed `send` enqueues exactly one `(value, semaphore)` delivery per
subscriber; after sending `vs` each subscriber's queue grew by exactly
`vs.length` deliveries carrying the sent values in production order,
the `t`-th delivery to subscriber `k` carries the fresh semaphore
`nextSem + t*K + k`, and these semaphore ids are pairwise distinct
across subscribers and sends. -/
theorem claim4_send_fanout {α : Type} (ch : ChannelState α) (p : SemProvider)
    (vs : List α) (hopen : ∀ s ∈ ch.subscribers, s.isOpen = true) :
    (∀ k, k < ch.subscribers.length →
      ∃ sub, ch.subscribers.get? k = some sub ∧
        (Channel.sendMany ch p vs).1.subscribers.get? k =
          some ⟨true, sub.queue ++ manySpec vs p.nextSem ch.subscribers.length k⟩ ∧
        (manySpec vs p.nextSem ch.subscribers.length k).map Prod.fst = vs ∧
        (manySpec vs p.nextSem ch.subscribers.length k).length = vs.length ∧
        ∀ t, (manySpec vs p.nextSem ch.subscribers.length k).get? t =
          (vs.get? t).map fun v => (v, p.nextSem + t * ch.subscribers.length + k)) ∧
    (∀ t k t' k', k < ch.subscribers.length → k' < ch.subscribers.length →
      (t, k) ≠ (t', k') →
      p.nextSem + t * ch.subscribers.length + k ≠
        p.nextSem + t' * ch.subscribers.length + k') := by
  constructor
  · intro k hk
    obtain ⟨sub, hsub, hres, _⟩ := sendMany_get? vs ch p hopen k hk
    exact ⟨sub, hsub, hres, manySpec_fst _ _ _ _, manySpec_length _ _ _ _,
      fun t => manySpec_get? vs p.nextSem _ k t⟩
  · intro t k t' k' hk hk' hne
    exact semId_injective p.nextSem ch.subscribers.length t k t' k' hk hk' hne

/-- The concrete two-subscriber channel used by the C4 witness. -/
def c4Channel : ChannelState Nat := ⟨[⟨true, []⟩, ⟨true, []⟩]⟩

/-- The concrete fresh provider used by the C4 witness. -/
def c4Provider : SemProvider := ⟨0, []⟩

/-- C4 witness: two live subscribers, two completed sends. -/
theorem claim4_send_fanout_witness :
    (∀ k, k < c4Channel.subscribers.length →
      ∃ sub, c4Channel.subscribers.get? k = some sub ∧
        (Channel.sendMany c4Channel c4Provider [10, 20]).1.subscribers.get? k =
          some ⟨true, sub.queue ++
            manySpec [10, 20] c4Provider.nextSem c4Channel.subscribers.length k⟩ ∧
        (manySpec [10, 20] c4Provider.nextSem c4Channel.subscribers.length k).map
          Prod.fst = [10, 20] ∧
        (manySpec [10, 20] c4Provider.nextSem c4Channel.subscribers.length k).length =
          ([10, 20] : List Nat).length ∧
        ∀ t, (manySpec [10, 20] c4Provider.nextSem c4Channel.subscribers.length k).get? t =
          (([10, 20] : List Nat).get? t).map fun v =>
            (v, c4Provider.nextSem + t * c4Channel.subscribers.length + k)) ∧
    (∀ t k t' k', k < c4Channel.subscribers.length → k' < c4Channel.subscribers.length →
      (t, k) ≠ (t', k') →
      c4Provider.nextSem + t * c4Channel.subscribers.length + k ≠
        c4Provider.nextSem + t' * c4Channel.subscribers.length + k') :=
  claim4_send_fanout c4Channel c4Provider [10, 20] (by decide)

/-! ## Claim C7 — image pool first-fit acquisition and reuse -/

namespace Pool

/-- Setting a slot and reading it back. -/
theorem get?_set_self {α : Type} (l : List α) (i : Nat) (a : α) (h : i < l.length) :
    (l.set i a).get? i = some a := by
  induction l generalizing i with
  | nil => simp at h
  | cons hd tl ih =>
    cases i with
    | zero => rfl
    | succ i => simpa using ih i (by simpa using h)

/-- `findAvailable` hits: the index is in range, the slot matches, and
no earlier slot matches. -/
theorem findAvailable_spec (w h : Nat) (pool : List VideoBuffer) (i : Nat)
    (hfind : findAvailable w h pool = some i) :
    i < pool.length ∧
    (∃ b, pool.get? i = some b ∧ slotMatches w h b = true) ∧
    (∀ j b', j < i → pool.get? j = some b' → slotMatches w h b' = false) := by
  induction pool generalizing i with
  | nil => simp [findAvailable] at hfind
  | cons b rest ih =>
    by_cases hb : slotMatches w h b
    · simp only [findAvailable, if_pos hb, Option.some.injEq] at hfind
      subst hfind
      exact ⟨by simp, ⟨b, rfl, hb⟩, fun j b' hj => by omega⟩
    · simp only [findAvailable, if_neg hb, Option.map_eq_some'] at hfind
      obtain ⟨i', hi', rfl⟩ := hfind
      obtain ⟨hlt, ⟨b', hb', hm⟩, hearlier⟩ := ih i' hi'
      refine ⟨by simpa using hlt, ⟨b', by simpa using hb', hm⟩, ?_⟩
      intro j bj hj hbj
      cases j with
      | zero =>
        simp only [List.get?_cons_zero, Option.some.injEq] at hbj
        subst hbj
        simpa using hb
      | succ j =>
        simp only [List.get?_cons_succ] at hbj
        exact hearlier j bj (by omega) hbj

/-- `findAvailable` misses: no slot matches. -/
theorem findAvailable_none (w h : Nat) (pool : List VideoBuffer)
    (hfind : findAvailable w h pool = none) :
    ∀ j b, pool.get? j = some b → slotMatches w h b = false := by
  induction pool with
  | nil => intro j b hb; simp at hb
  | cons hd rest ih =>
    intro j b hb
    by_cases hm : slotMatches w h hd
    · simp [findAvailable, hm] at hfind
    · cases j with
      | zero =>
        simp only [List.get?_cons_zero, Option.some.injEq] at hb
        subst hb; simpa using hm
      | succ j =>
        simp only [findAvailable, if_neg hm, Option.map_eq_none'] at hfind
        exact ih hfind j b hb

/-- `findAvailable` completeness: if slot `i` matches and no earlier
slot does, the scan returns `i`. -/
theorem findAvailable_of (w h : Nat) (pool : List VideoBuffer) (i : Nat)
    (b : VideoBuffer) (hb : pool.get? i = some b) (hm : slotMatches w h b = true)
    (hearlier : ∀ j b', j < i → pool.get? j = some b' → slotMatches w h b' = false) :
    findAvailable w h pool = some i := by
  induction pool generalizing i with
  | nil => simp at hb
  | cons hd rest ih =>
    cases i with
    | zero =>
      simp only [List.get?_cons_zero, Option.some.injEq] at hb
      subst hb
      simp [findAvailable, hm]
    | succ i =>
      have hhd : slotMatches w h hd = false :=
        hearlier 0 hd (Nat.succ_pos i) rfl
      simp only [List.get?_cons_succ] at hb
      have := ih i hb fun j b' hj hbj =>
        hearlier (j + 1) b' (by omega) (by simpa using hbj)
      simp [findAvailable, hhd, this]

/-- C7. `acquire_image(w, h)` returns the lowest-index available slot of
exactly the requested dimensions and marks it in-use; when no such slot
exists it appends a fresh slot at index `pool.length`; the pool never
shrinks and a miss leaves all existing slots untouched; and once slot
`i` (of dimensions `(w, h)`) has been released by the drain task, the
next `acquire_image(w, h)` returns `i` again provided no earlier slot
matches (first-fit). -/
theorem claim7_pool_first_fit (pool : List VideoBuffer) (w h : Nat) :
    (∀ i, findAvailable w h pool = some i →
      (createImage pool w h).1 = i ∧
      i < pool.length ∧
      (∃ b, pool.get? i = some b ∧ slotMatches w h b = true) ∧
      (∀ j b', j < i → pool.get? j = some b' → slotMatches w h b' = false) ∧
      (createImage pool w h).2 = pool.set i ⟨false, w, h⟩ ∧
      (createImage pool w h).2.length = pool.length) ∧
    (findAvailable w h pool = none →
      (∀ j b, pool.get? j = some b → slotMatches w h b = false) ∧
      createImage pool w h = (pool.length, pool ++ [⟨true, w, h⟩])) ∧
    pool.length ≤ (createImage pool w h).2.length ∧
    (∀ i b, pool.get? i = some b → b.width = w → b.height = h →
      (∀ j b', j < i → (releaseSlot pool i).get? j = some b' →
        slotMatches w h b' = false) →
      (createImage (releaseSlot pool i) w h).1 = i) := by
  refine ⟨?_, ?_, ?_, ?_⟩
  · intro i hfind
    obtain ⟨hlt, ⟨b, hb, hm⟩, hearlier⟩ := findAvailable_spec w h pool i hfind
    have hbw : b.width = w ∧ b.height = h ∧ b.available = true := by
      simp only [slotMatches, Bool.and_eq_true, beq_iff_eq] at hm
      exact ⟨hm.1.2, hm.2, hm.1.1⟩
    refine ⟨by simp [createImage, hfind], hlt, ⟨b, hb, hm⟩, hearlier, ?_, ?_⟩
    · simp only [createImage, hfind, setSlot, hb]
      obtain ⟨h1, h2, _⟩ := hbw
      have : ({ b with available := false } : VideoBuffer) = ⟨false, w, h⟩ := by
        cases b; simp_all
      rw [this]
    · simp only [createImage, hfind, setSlot, hb]
      simp
  · intro hfind
    exact ⟨findAvailable_none w h pool hfind, by simp [createImage, hfind]⟩
  · unfold createImage
    cases hfind : findAvailable w h pool with
    | some i => simp [setSlot]
    | none => simp
  · intro i b hb hw hh hearlier
    have hrel : (releaseSlot pool i).get? i = some { b with available := true } := by
      simp only [releaseSlot, hb]
      obtain ⟨hlt, -⟩ := List.get?_eq_some.mp hb
      exact get?_set_self pool i _ hlt
    have hm : slotMatches w h { b with available := true } = true := by
      simp [slotMatches, hw, hh]
    have := findAvailable_of w h (releaseSlot pool i) i _ hrel hm hearlier
    simp [createImage, this]

end Pool

/-- C7 witness: a pool whose only slot matches and was released is
reacquired at the same index; a miss grows the pool; a hit marks
in-use. -/
theorem claim7_pool_first_fit_witness :
    (Pool.createImage [⟨true, 256, 1⟩] 256 1).1 = 0 ∧
    Pool.createImage [⟨false, 256, 1⟩] 256 1 =
      (1, [⟨false, 256, 1⟩, ⟨true, 256, 1⟩]) ∧
    (Pool.createImage (Pool.releaseSlot [⟨false, 256, 1⟩] 0) 256 1).1 = 0 := by
  refine ⟨?_, ?_, ?_⟩
  · exact ((Pool.claim7_pool_first_fit [⟨true, 256, 1⟩] 256 1).1 0 (by decide)).1
  · exact ((Pool.claim7_pool_first_fit [⟨false, 256, 1⟩] 256 1).2.1 (by decide)).2
  · exact (Pool.claim7_pool_first_fit [⟨false, 256, 1⟩] 256 1).2.2.2 0 ⟨false, 256, 1⟩
      rfl rfl rfl (by intro j b' hj _; omega)

/-! ## Claim C10 — `FromAudioF32.process_frame` precondition and output size -/

/-- The i16/u16/i32 encoders produce `bytes_per_sample` bytes. -/
theorem encSampleQ_length (fmt : QFormat) (s : ℚ) :
    (encSampleQ fmt s).length = fmt.bytesPerSample := by
  cases fmt <;> rfl

/-- The f32 (pattern) encoder produces 4 bytes. -/
theorem encSampleF32_length (bits : Nat) : (encSampleF32 bits).length = 4 := rfl

namespace FromAudioF32

/-- One row of the write loop succeeds and has `nc * nb` bytes when
every channel has a `j`-th sample. -/
theorem encodeRow_ok {σ : Type} (enc : σ → List Nat) (nb : Nat)
    (henc : ∀ s, (enc s).length = nb) (j : Nat) (bufs : List (List σ))
    (hj : ∀ b ∈ bufs, j < b.length) :
    ∃ row, encodeRow enc j bufs = .ok row ∧ row.length = bufs.length * nb := by
  induction bufs with
  | nil => exact ⟨[], rfl, by simp⟩
  | cons chan rest ih =>
    obtain ⟨row, hrow, hlen⟩ := ih fun b hb => hj b (List.mem_cons_of_mem _ hb)
    have hc : j < chan.length := hj chan (List.mem_cons_self _ _)
    obtain ⟨s, hs⟩ : ∃ s, chan.get? j = some s := ⟨_, List.get?_eq_get hc⟩
    refine ⟨enc s ++ row, ?_, ?_⟩
    · simp only [encodeRow, hrow]
      rw [hs]
      rfl
    · simp only [List.length_append, henc, hlen, List.length_cons, Nat.succ_mul]
      omega

/-- The write loop over a list of sample indices. -/
theorem encodeRows_ok {σ : Type} (enc : σ → List Nat) (nb : Nat)
    (henc : ∀ s, (enc s).length = nb) (bufs : List (List σ)) (js : List Nat)
    (hjs : ∀ j ∈ js, ∀ b ∈ bufs, j < b.length) :
    ∃ out, encodeRows enc bufs js = .ok out ∧
      out.length = js.length * (bufs.length * nb) := by
  induction js with
  | nil => exact ⟨[], rfl, by simp⟩
  | cons j rest ih =>
    obtain ⟨row, hrow, hrlen⟩ := encodeRow_ok enc nb henc j bufs
      (hjs j (List.mem_cons_self _ _))
    obtain ⟨out, hout, holen⟩ := ih fun j hj => hjs j (List.mem_cons_of_mem _ hj)
    refine ⟨row ++ out, ?_, ?_⟩
    · simp only [encodeRows, hrow, hout]
      rfl
    · simp only [List.length_append, hrlen, holen, List.length_cons, Nat.succ_mul]
      omega

/-- `process_frame`, generically: the `todo!` on a channel-count
mismatch, and success with an exactly-sized buffer on well-formed
frames. -/
theorem processFrameG_spec {σ : Type} (enc : σ → List Nat) (nb : Nat)
    (henc : ∀ s, (enc s).length = nb) (layout : AudioChannelLayout)
    (bufs : List (List σ)) :
    (bufs.length ≠ channelCount layout →
      processFrameG enc layout bufs = .error .todoUnimplemented) ∧
    (bufs.length = channelCount layout →
      (∀ b ∈ bufs, b.length = (bufs.headD []).length) →
      ∃ out, processFrameG enc layout bufs = .ok out ∧
        out.length = channelCount layout * nb * (bufs.headD []).length) := by
  constructor
  · intro hne
    simp [processFrameG, hne]
  · intro heq hwf
    obtain ⟨out, hout, hlen⟩ := encodeRows_ok enc nb henc bufs
      (List.range (bufs.headD []).length)
      (fun j hj b hb => by
        rw [hwf b hb]
        exact List.mem_range.mp hj)
    refine ⟨out, ?_, ?_⟩
    · rw [List.headD_eq_head?] at hout
      simp [processFrameG, heq, hout]
    · rw [hlen, List.length_range, heq]
      ring

end FromAudioF32

/-- C10. `FromAudioF32.process_frame` requires the audio frame to carry
exactly as many channel buffers as the configured layout implies (1 for
Mono/L/R, 2 for L_R/R_L): on a mismatch it diverges through the
`todo!("Return a reasonable error")` panic path instead of returning an
error value; under the precondition (with the AudioFrame well-formedness
of spec §3: all channel buffers of equal length) the error branch is
unreachable and the interleaved output holds exactly
`num_channels * bytes_per_sample * num_samples` bytes. This holds for
every audio format: the three arithmetic formats and `f32`. -/
theorem claim10_from_audio_precondition :
    (∀ (fmt : QFormat) (layout : AudioChannelLayout) (bufs : List (List ℚ)),
      (bufs.length ≠ channelCount layout →
        FromAudioF32.processFrameQ fmt layout bufs = .error .todoUnimplemented) ∧
      (bufs.length = channelCount layout →
        (∀ b ∈ bufs, b.length = (bufs.headD []).length) →
        ∃ out, FromAudioF32.processFrameQ fmt layout bufs = .ok out ∧
          out.length =
            channelCount layout * fmt.bytesPerSample * (bufs.headD []).length)) ∧
    (∀ (layout : AudioChannelLayout) (bufs : List (List Nat)),
      (bufs.length ≠ channelCount layout →
        FromAudioF32.processFrameF32 layout bufs = .error .todoUnimplemented) ∧
      (bufs.length = channelCount layout →
        (∀ b ∈ bufs, b.length = (bufs.headD []).length) →
        ∃ out, FromAudioF32.processFrameF32 layout bufs = .ok out ∧
          out.length = channelCount layout * 4 * (bufs.headD []).length)) := by
  constructor
  · intro fmt layout bufs
    exact FromAudioF32.processFrameG_spec (encSampleQ fmt) fmt.bytesPerSample
      (encSampleQ_length fmt) layout bufs
  · intro layout bufs
    exact FromAudioF32.processFrameG_spec encSampleF32 4 encSampleF32_length layout bufs

/-- C10 witness: a one-buffer frame under a stereo layout panics in the
`todo!`; a well-formed mono i16 frame of one sample yields exactly two
bytes. -/
theorem claim10_from_audio_precondition_witness :
    FromAudioF32.processFrameQ .i16 .l_r [[0]] = .error .todoUnimplemented ∧
    ∃ out, FromAudioF32.processFrameQ .i16 .mono [[0]] = .ok out ∧
      out.length =
        channelCount .mono * QFormat.bytesPerSample .i16 *
          (([[(0 : ℚ)]].headD []).length) :=
  ⟨(claim10_from_audio_precondition.1 .i16 .l_r [[0]]).1 (by decide),
    (claim10_from_audio_precondition.1 .i16 .mono [[0]]).2 rfl
      (by intro b hb; simp at hb; simp [hb])⟩

/-! ## Claim C9 — audio round-trip fidelity

The source deinterleaving in `ToAudioF32.process_frame` is broken for
two-channel layouts: for channel 0 the `step_by((bps * 0).max(1))`
selects *every* byte of the interleaved buffer, after which
`read_*_into` panics on its length assertion (`2 * N` interleaved
samples against an `N`-sample destination). Any non-empty two-channel
round trip therefore panics. For the single-channel layouts
(`Mono`, `L`, `R`) the byte selection is the identity and the round
trip is exact up to each format's quantisation. -/

/-- Equality of `Except` results is decidable componentwise. -/
instance {ε α : Type} [DecidableEq ε] [DecidableEq α] : DecidableEq (Except ε α) :=
  fun x y =>
    match x, y with
    | .error e, .error e' =>
      if h : e = e' then .isTrue (congrArg Except.error h)
      else .isFalse fun hc => h (Except.error.inj hc)
    | .ok a, .ok b =>
      if h : a = b then .isTrue (congrArg Except.ok h)
      else .isFalse fun hc => h (Except.ok.inj hc)
    | .error _, .ok _ => .isFalse fun hc => Except.noConfusion hc
    | .ok _, .error _ => .isFalse fun hc => Except.noConfusion hc

/-- C9 counterexample: the f32 round trip with matching `L_R` stereo
layout on the two-channel, one-sample-per-channel frame `[[0], [0]]`
panics in `read_f32_into`'s length assertion (8 source bytes against a
1-sample destination) instead of returning the original samples. -/
theorem claim9_counterexample :
    audioRoundTripF32 .l_r [[0], [0]] = .error .lengthMismatch := by
  decide

/-- The concatenation `flatEnc enc l` of the per-sample encodings, in
sample order — what the write loop produces for a single channel. -/
def flatEnc {σ : Type} (enc : σ → List Nat) : List σ → List Nat
  | [] => []
  | s :: rest => enc s ++ flatEnc enc rest

/-- Length of the single-channel interleaving. -/
theorem flatEnc_length {σ : Type} (enc : σ → List Nat) (nb : Nat)
    (henc : ∀ s, (enc s).length = nb) (l : List σ) :
    (flatEnc enc l).length = nb * l.length := by
  induction l with
  | nil => simp [flatEnc]
  | cons s rest ih =>
    simp only [flatEnc, List.length_append, henc, ih, List.length_cons]
    ring

/-- One row of the write loop over a single channel. -/
theorem encodeRow_single {σ : Type} (enc : σ → List Nat) (l : List σ) (j : Nat)
    (s : σ) (hs : l.get? j = some s) :
    FromAudioF32.encodeRow enc j [l] = .ok (enc s) := by
  simp only [FromAudioF32.encodeRow]
  rw [hs]
  simp [Except.map]

/-- The write loop over a single channel, for the index range
`[j, j + k)`. -/
theorem encodeRows_single {σ : Type} (enc : σ → List Nat) (l : List σ) :
    ∀ (k j : Nat), j + k = l.length →
      FromAudioF32.encodeRows enc [l] (List.range' j k) = .ok (flatEnc enc (l.drop j)) := by
  intro k
  induction k with
  | zero =>
    intro j hj
    have : l.drop j = [] := List.drop_eq_nil_of_le (by omega)
    simp [FromAudioF32.encodeRows, this, flatEnc]
  | succ k ih =>
    intro j hj
    have hjlt : j < l.length := by omega
    obtain ⟨s, hs⟩ : ∃ s, l.get? j = some s := ⟨_, List.get?_eq_get hjlt⟩
    have hdrop : l.drop j = l.get ⟨j, hjlt⟩ :: l.drop (j + 1) := by
      rw [List.drop_eq_getElem_cons hjlt]
      simp
    have hsval : s = l.get ⟨j, hjlt⟩ := by
      rw [List.get?_eq_get hjlt, Option.some.injEq] at hs
      exact hs.symm
    rw [List.range'_succ]
    simp only [FromAudioF32.encodeRows, encodeRow_single enc l j s hs,
      ih (j + 1) (by omega)]
    rw [hdrop, ← hsval]
    rfl

/-- The full write loop for a single channel is the plain concatenation
of sample encodings. -/
theorem processFrameG_single {σ : Type} (enc : σ → List Nat)
    (layout : AudioChannelLayout) (hl : channelCount layout = 1) (l : List σ) :
    FromAudioF32.processFrameG enc layout [l] = .ok (flatEnc enc l) := by
  have h1 : ([l] : List (List σ)).length = channelCount layout := by simp [hl]
  simp only [FromAudioF32.processFrameG, h1]
  rw [if_neg (by simp [hl])]
  have := encodeRows_single enc l l.length 0 (by omega)
  simpa [List.range_eq_range'] using this

/-- `step_by(1)` is the identity selection. -/
theorem everyNth_one {α : Type} (l : List α) : ToAudioF32.everyNth 1 l = l := by
  show ToAudioF32.everyNthAux 1 0 l = l
  induction l with
  | nil => rfl
  | cons a rest ih => simp [ToAudioF32.everyNthAux, ih]

/-- Chunk-decoding a concatenation of `nb`-byte encodings decodes each
sample in turn. -/
theorem decodeChunks_flatEnc {σ τ : Type} (enc : σ → List Nat) (dec : List Nat → τ)
    (nb : Nat) (henc : ∀ s, (enc s).length = nb) (l : List σ) :
    ToAudioF32.decodeChunks nb dec l.length (flatEnc enc l) =
      l.map (fun s => dec (enc s)) := by
  induction l with
  | nil => rfl
  | cons s rest ih =>
    simp only [List.length_cons, ToAudioF32.decodeChunks, flatEnc]
    rw [List.take_left' (henc s), List.drop_left' (henc s), ih]
    rfl

/-- The read loop over a single channel: the byte selection is the
identity, the length assertion holds, and the chunk decode recovers one
decoded sample per encoded sample. -/
theorem toAudio_single {σ τ : Type} (enc : σ → List Nat) (dec : List Nat → τ)
    (nb : Nat) (henc : ∀ s, (enc s).length = nb) (hnb : 0 < nb)
    (layout : AudioChannelLayout) (hl : channelCount layout = 1) (l : List σ) :
    ToAudioF32.processFrameG nb dec layout (flatEnc enc l) =
      .ok [l.map (fun s => dec (enc s))] := by
  have hlen : (flatEnc enc l).length = nb * l.length := flatEnc_length enc nb henc l
  have hpass : ToAudioF32.channelPass nb dec 1 (flatEnc enc l) 0 =
      .ok (l.map (fun s => dec (enc s))) := by
    have h1 : max (nb * 0) 1 = 1 := by simp
    simp only [ToAudioF32.channelPass, h1, Nat.zero_mul, List.drop_zero, everyNth_one,
      hlen, Nat.div_one, Nat.mul_div_cancel_left _ hnb]
    rw [if_neg (by omega)]
    rw [decodeChunks_flatEnc enc dec nb henc l]
  simp only [ToAudioF32.processFrameG, hl]
  show ToAudioF32.channelLoop nb dec 1 (flatEnc enc l) [0] = _
  simp only [ToAudioF32.channelLoop, hpass]
  rfl

/-- Single-channel round trip, generically: one decoded sample per
input sample, in order. -/
theorem roundTripG_single {σ τ : Type} (enc : σ → List Nat) (dec : List Nat → τ)
    (nb : Nat) (henc : ∀ s, (enc s).length = nb) (hnb : 0 < nb)
    (layout : AudioChannelLayout) (hl : channelCount layout = 1) (l : List σ) :
    (FromAudioF32.processFrameG enc layout [l]).bind
        (ToAudioF32.processFrameG nb dec layout) =
      .ok [l.map (fun s => dec (enc s))] := by
  rw [processFrameG_single enc layout hl l]
  exact toAudio_single enc dec nb henc hnb layout hl l

/-- Rounding to the nearest integer at half distance: the floor form. -/
theorem floor_half_bound (x : ℚ) : |(⌊x + 1/2⌋ : ℚ) - x| ≤ 1/2 := by
  have h1 : (⌊x + 1/2⌋ : ℚ) ≤ x + 1/2 := Int.floor_le _
  have h2 : x + 1/2 - 1 < ⌊x + 1/2⌋ := Int.sub_one_lt_floor _
  rw [abs_le]
  constructor <;> linarith

/-- `f64::round` is within half a unit of its argument. -/
theorem roundHalfAway_bound (q : ℚ) : |(roundHalfAway q : ℚ) - q| ≤ 1/2 := by
  unfold roundHalfAway
  split_ifs with hq
  · exact floor_half_bound q
  · have := floor_half_bound (-q)
    rw [Int.cast_neg]
    calc |(-(⌊-q + 1/2⌋ : ℚ)) - q| = |(⌊-q + 1/2⌋ : ℚ) - -q| := by
          rw [← abs_neg]; ring_nf
      _ ≤ 1/2 := this

/-- `f64::round` of a value bounded by the integer `M` stays in
`[-M, M]`. -/
theorem roundHalfAway_mem (q : ℚ) (M : ℤ) (h : |q| ≤ (M : ℚ)) :
    -M ≤ roundHalfAway q ∧ roundHalfAway q ≤ M := by
  have hb := roundHalfAway_bound q
  rw [abs_le] at hb h
  constructor
  · have h1 : ((-M - 1 : ℤ) : ℚ) < (roundHalfAway q : ℚ) := by push_cast; linarith
    have h2 : (-M - 1 : ℤ) < roundHalfAway q := by exact_mod_cast h1
    omega
  · have h1 : (roundHalfAway q : ℚ) < ((M + 1 : ℤ) : ℚ) := by push_cast; linarith
    have h2 : roundHalfAway q < M + 1 := by exact_mod_cast h1
    omega

/-- A saturating cast within bounds is the identity. -/
theorem clampInt_eq (lo hi n : ℤ) (h1 : lo ≤ n) (h2 : n ≤ hi) :
    clampInt lo hi n = n := by
  unfold clampInt
  omega

/-- Little-endian 16-bit serialisation round trip. -/
theorem fromLe2_leBytes2 (u : Nat) (h : u < 2 ^ 16) : fromLe2 (leBytes2 u) = u := by
  simp only [fromLe2, leBytes2, List.getD_cons_zero, List.getD_cons_succ]
  omega

/-- Little-endian 32-bit serialisation round trip. -/
theorem fromLe4_leBytes4 (u : Nat) (h : u < 2 ^ 32) : fromLe4 (leBytes4 u) = u := by
  simp only [fromLe4, leBytes4, List.getD_cons_zero, List.getD_cons_succ]
  omega

/-- Two's-complement 16-bit encode/decode round trip. -/
theorem decTwos16_emod (n : ℤ) (h1 : -(2 ^ 15) ≤ n) (h2 : n < 2 ^ 15) :
    decTwos16 ((n % 2 ^ 16).toNat) = n := by
  unfold decTwos16
  split_ifs <;> omega

/-- Two's-complement 32-bit encode/decode round trip. -/
theorem decTwos32_emod (n : ℤ) (h1 : -(2 ^ 31) ≤ n) (h2 : n < 2 ^ 31) :
    decTwos32 ((n % 2 ^ 32).toNat) = n := by
  unfold decTwos32
  split_ifs <;> omega

/-- Per-sample i16 round trip: a sample in `[-1, 1]` comes back as
`round(s * 32767) / 32767`, within `1/32767` of the original. -/
theorem decEnc_i16 (s : ℚ) (h : |s| ≤ 1) :
    |decSampleQ .i16 (encSampleQ .i16 s) - s| ≤ 1 / 32767 := by
  have habs : |s * 32767| ≤ (32767 : ℚ) := by
    rw [abs_mul]
    have : |(32767 : ℚ)| = 32767 := by norm_num
    rw [this]
    nlinarith [abs_nonneg s]
  obtain ⟨hlo, hhi⟩ := roundHalfAway_mem (s * 32767) 32767 (by exact_mod_cast habs)
  set n := roundHalfAway (s * 32767) with hn
  have hclamp : clampInt (-(2 ^ 15)) (2 ^ 15 - 1) n = n := clampInt_eq _ _ _
    (by omega) (by omega)
  have hmod : (n % 2 ^ 16).toNat < 2 ^ 16 := by omega
  have henc : encSampleQ .i16 s = leBytes2 ((n % 2 ^ 16).toNat) := by
    simp only [encSampleQ, ← hn, hclamp]
  have hdec : decSampleQ .i16 (encSampleQ .i16 s) = (n : ℚ) / 32767 := by
    rw [henc]
    simp only [decSampleQ, fromLe2_leBytes2 _ hmod]
    rw [decTwos16_emod n (by omega) (by omega)]
  rw [hdec]
  have hrw : (n : ℚ) / 32767 - s = ((n : ℚ) - s * 32767) / 32767 := by ring
  rw [hrw, abs_div]
  have h32 : |(32767 : ℚ)| = 32767 := by norm_num
  rw [h32]
  have hbound := roundHalfAway_bound (s * 32767)
  rw [div_le_div_iff₀ (by norm_num) (by norm_num)]
  calc |(n : ℚ) - s * 32767| * 32767 ≤ (1/2) * 32767 := by
        apply mul_le_mul_of_nonneg_right _ (by norm_num)
        exact hbound
    _ ≤ 1 * 32767 := by norm_num

/-- Per-sample i32 round trip: within `1 / (2^31 - 1)`. -/
theorem decEnc_i32 (s : ℚ) (h : |s| ≤ 1) :
    |decSampleQ .i32 (encSampleQ .i32 s) - s| ≤ 1 / (2 ^ 31 - 1) := by
  have hM : ((2 ^ 31 - 1 : ℤ) : ℚ) = (2147483647 : ℚ) := by norm_num
  have habs : |s * (2 ^ 31 - 1)| ≤ ((2 ^ 31 - 1 : ℤ) : ℚ) := by
    rw [hM, abs_mul]
    have : |(2 ^ 31 - 1 : ℚ)| = 2147483647 := by norm_num
    rw [this]
    nlinarith [abs_nonneg s]
  obtain ⟨hlo, hhi⟩ := roundHalfAway_mem (s * (2 ^ 31 - 1)) (2 ^ 31 - 1) habs
  set n := roundHalfAway (s * (2 ^ 31 - 1)) with hn
  have hclamp : clampInt (-(2 ^ 31)) (2 ^ 31 - 1) n = n := clampInt_eq _ _ _
    (by omega) (by omega)
  have hmod : (n % 2 ^ 32).toNat < 2 ^ 32 := by omega
  have henc : encSampleQ .i32 s = leBytes4 ((n % 2 ^ 32).toNat) := by
    simp only [encSampleQ, ← hn, hclamp]
  have hdec : decSampleQ .i32 (encSampleQ .i32 s) = (n : ℚ) / (2 ^ 31 - 1) := by
    rw [henc]
    simp only [decSampleQ, fromLe4_leBytes4 _ hmod]
    rw [decTwos32_emod n (by omega) (by omega)]
  rw [hdec]
  have hrw : (n : ℚ) / (2 ^ 31 - 1) - s =
      ((n : ℚ) - s * (2 ^ 31 - 1)) / (2 ^ 31 - 1) := by
    field_simp
    ring
  rw [hrw, abs_div]
  have h32 : |(2 ^ 31 - 1 : ℚ)| = 2 ^ 31 - 1 := by norm_num
  rw [h32]
  have hbound := roundHalfAway_bound (s * (2 ^ 31 - 1))
  have hcast : ((n : ℚ) - s * ((2 ^ 31 - 1 : ℤ) : ℚ)) = (n : ℚ) - s * (2 ^ 31 - 1) := by
    push_cast
    ring
  rw [div_le_div_iff₀ (by norm_num) (by norm_num)]
  calc |(n : ℚ) - s * (2 ^ 31 - 1)| * (2 ^ 31 - 1)
      ≤ (1/2) * (2 ^ 31 - 1) := by
        apply mul_le_mul_of_nonneg_right _ (by norm_num)
        calc |(n : ℚ) - s * (2 ^ 31 - 1)|
            = |(n : ℚ) - s * ((2 ^ 31 - 1 : ℤ) : ℚ)| := by rw [hcast]
          _ ≤ 1/2 := by
              have : ((2 ^ 31 - 1 : ℤ) : ℚ) = (2 ^ 31 - 1 : ℚ) := by push_cast; ring
              rw [this]
              exact hbound
    _ ≤ 1 * (2 ^ 31 - 1) := by norm_num

/-- C9 (amended): for the single-channel layouts (Mono, L, R) the
round trip `ToAudioF32 ∘ FromAudioF32` with matching format and layout
returns one output sample per input sample, in order, with worst-case
error at most `1/32767` for i16 and `1/(2^31 - 1)` for i32, and exactly
the original samples for f32; two-channel layouts panic (see the
counterexample), so the claim's quantification over layouts must be
restricted to single-channel ones. -/
theorem claim9_roundtrip_mono :
    (∀ layout : AudioChannelLayout, channelCount layout = 1 →
      ∀ samples : List ℚ, (∀ s ∈ samples, |s| ≤ 1) →
        ∃ out, audioRoundTripQ .i16 layout [samples] = .ok [out] ∧
          List.Forall₂ (fun y x => |y - x| ≤ 1 / 32767) out samples) ∧
    (∀ layout : AudioChannelLayout, channelCount layout = 1 →
      ∀ samples : List ℚ, (∀ s ∈ samples, |s| ≤ 1) →
        ∃ out, audioRoundTripQ .i32 layout [samples] = .ok [out] ∧
          List.Forall₂ (fun y x => |y - x| ≤ 1 / (2 ^ 31 - 1)) out samples) ∧
    (∀ layout : AudioChannelLayout, channelCount layout = 1 →
      ∀ bits : List Nat, (∀ b ∈ bits, b < 2 ^ 32) →
        audioRoundTripF32 layout [bits] = .ok [bits]) := by
  refine ⟨?_, ?_, ?_⟩
  · intro layout hl samples hs
    refine ⟨samples.map (fun s => decSampleQ .i16 (encSampleQ .i16 s)), ?_, ?_⟩
    · show (FromAudioF32.processFrameG (encSampleQ .i16) layout [samples]).bind
        (ToAudioF32.processFrameG (QFormat.i16.bytesPerSample) (decSampleQ .i16) layout) = _
      exact roundTripG_single _ _ _ (encSampleQ_length .i16) (by decide) layout hl samples
    · rw [List.forall₂_map_left_iff]
      exact List.forall₂_same.mpr fun s hmem => decEnc_i16 s (hs s hmem)
  · intro layout hl samples hs
    refine ⟨samples.map (fun s => decSampleQ .i32 (encSampleQ .i32 s)), ?_, ?_⟩
    · show (FromAudioF32.processFrameG (encSampleQ .i32) layout [samples]).bind
        (ToAudioF32.processFrameG (QFormat.i32.bytesPerSample) (decSampleQ .i32) layout) = _
      exact roundTripG_single _ _ _ (encSampleQ_length .i32) (by decide) layout hl samples
    · rw [List.forall₂_map_left_iff]
      exact List.forall₂_same.mpr fun s hmem => decEnc_i32 s (hs s hmem)
  · intro layout hl bits hb
    have := roundTripG_single encSampleF32 decSampleF32 4 encSampleF32_length
      (by norm_num) layout hl bits
    have hmap : bits.map (fun b => decSampleF32 (encSampleF32 b)) = bits := by
      have : ∀ b ∈ bits, decSampleF32 (encSampleF32 b) = id b :=
        fun b hmem => fromLe4_leBytes4 b (hb b hmem)
      rw [List.map_congr_left this, List.map_id]
    show (FromAudioF32.processFrameG encSampleF32 layout [bits]).bind
      (ToAudioF32.processFrameG 4 decSampleF32 layout) = _
    rw [this, hmap]

/-- C9 amended-claim witness: a mono i16 round trip of `[0]` and a mono
f32 round trip of `[7]`. -/
theorem claim9_roundtrip_mono_witness :
    (∃ out, audioRoundTripQ .i16 .mono [[0]] = .ok [out] ∧
      List.Forall₂ (fun y x => |y - x| ≤ 1 / 32767) out [0]) ∧
    audioRoundTripF32 .mono [[7]] = .ok [[7]] :=
  ⟨claim9_roundtrip_mono.1 .mono rfl [0]
      (fun s hsm => by
        simp only [List.mem_singleton] at hsm
        simp [hsm]),
    claim9_roundtrip_mono.2.2 .mono rfl [7]
      (fun b hbm => by
        simp only [List.mem_singleton] at hbm
        simp [hbm])⟩

end Phaneron
